import Mathlib

/-!
Shallow embedding of the condition-compilation core of the
go-sigma-rule-engine repository: pkg/condition/condition_parser.go and
pkg/sigma/sigma.go. Go slices become lists, Go maps become association
lists, fallible functions return option or explicit error sums, and the
lexer channel consumed by the validator becomes the list of items it
would deliver. Repository components that the two source files reference
but whose own code is not part of the snapshot (lexer token table,
group-offset scanner, leaf matcher builder, detection-to-tree entry
point) are modelled from the design document and marked as such in their
doc comments.
-/

set_option autoImplicit false

namespace Sigma2Proof

/-- Modelled from the spec: the token kinds of the condition language
(section 3 of the design document) plus TokNil, the zero value of the Go
Token type, which the validator uses as the initial previous token and
the simple-search pass uses as the neutral placeholder modifier. The
kind names follow the identifiers that condition_parser.go references:
Identifier, IdentifierWithWildcard, IdentifierAll, KeywordAnd, KeywordOr,
KeywordNot, KeywordOf, StAll, StOne, SepLpar, SepRpar, LitEof,
TokUnsupp, TokNil. -/
inductive Token where
  | TokNil
  | Identifier
  | IdentifierWithWildcard
  | IdentifierAll
  | KeywordAnd
  | KeywordOr
  | KeywordNot
  | KeywordOf
  | StAll
  | StOne
  | SepLpar
  | SepRpar
  | LitEof
  | TokUnsupp
  deriving DecidableEq, Repr

/-- One lexed item: a token kind together with the raw text it was
lexed from, mirroring the item value the lexer channel delivers
(fields T and Val as read by condition_parser.go). -/
structure Item where
  T : Token
  Val : String
  deriving DecidableEq, Repr

/-- The tokens slice type of pkg/condition (type tokens = list of items). -/
abbrev tokens := List Item

/-- Modelled from the spec: the allowed-adjacency table consulted by the
validator (section 4.2). The table itself is not part of the source
snapshot; condition_parser.go only calls it. Encoded rules: an operand
(identifier, wildcard identifier, or the them identifier) may follow the
start of stream, a logical keyword, the of keyword, or an opening
parenthesis; a binary keyword or a closing parenthesis or the end marker
may follow a completed operand or a closing parenthesis; the negation
keyword and an opening parenthesis may follow the start of stream, a
binary keyword, or an opening parenthesis; a quantifier head may appear
where an operand may begin; the of keyword may only follow a quantifier
head. The examples required by the document hold: identifier after
identifier is illegal, a binary keyword after a binary keyword is
illegal, and an empty parenthesis pair is illegal. No transition into
the unsupported kind or out of the end marker is ever legal. -/
def validTokenSequence (prev next : Token) : Bool :=
  match next with
  | .Identifier | .IdentifierWithWildcard | .IdentifierAll =>
    match prev with
    | .TokNil | .KeywordAnd | .KeywordOr | .KeywordNot | .KeywordOf | .SepLpar => true
    | _ => false
  | .KeywordAnd | .KeywordOr =>
    match prev with
    | .Identifier | .IdentifierWithWildcard | .IdentifierAll | .SepRpar => true
    | _ => false
  | .KeywordNot =>
    match prev with
    | .TokNil | .KeywordAnd | .KeywordOr | .SepLpar => true
    | _ => false
  | .KeywordOf =>
    match prev with
    | .StAll | .StOne => true
    | _ => false
  | .StAll | .StOne =>
    match prev with
    | .TokNil | .KeywordAnd | .KeywordOr | .KeywordNot | .SepLpar => true
    | _ => false
  | .SepLpar =>
    match prev with
    | .TokNil | .KeywordAnd | .KeywordOr | .KeywordNot | .SepLpar => true
    | _ => false
  | .SepRpar =>
    match prev with
    | .Identifier | .IdentifierWithWildcard | .IdentifierAll | .SepRpar => true
    | _ => false
  | .LitEof =>
    match prev with
    | .Identifier | .IdentifierWithWildcard | .IdentifierAll | .SepRpar => true
    | _ => false
  | .TokNil | .TokUnsupp => false

/-- The errors the validator can return, one constructor per return
site of parser.collectAndValidateTokenSequences
(condition_parser.go lines 122 to 145): the unsupported-token error of
types.ErrUnsupportedToken carrying the raw text, the invalid-sequence
error carrying the two kinds and the raw value, and the incomplete-
stream error carrying the last kind seen. -/
inductive VErr where
  | unsupportedToken (msg : String)
  | invalidSeq (prev next : Token) (val : String)
  | incompleteSeq (last : Token)
  deriving DecidableEq, Repr

/-- The loop body of parser.collectAndValidateTokenSequences
(condition_parser.go lines 122 to 145). The first component is the
parser state p.tokens after the walk (items are appended only when both
checks pass and the item is not the end marker); the second is the
error, none meaning the validator accepted. The argument prev models
p.previous, initially the zero value TokNil. -/
def cavGo (prev : Token) : tokens → tokens × Option VErr
  | [] => ([], if prev = Token.LitEof then none else some (VErr.incompleteSeq prev))
  | item :: rest =>
    if item.T = Token.TokUnsupp then
      ([], some (VErr.unsupportedToken item.Val))
    else if validTokenSequence prev item.T = false then
      ([], some (VErr.invalidSeq prev item.T item.Val))
    else
      (if item.T = Token.LitEof then (cavGo item.T rest).1 else item :: (cavGo item.T rest).1,
       (cavGo item.T rest).2)

/-- parser.collectAndValidateTokenSequences on the full stream the
lexer channel delivers, starting from the zero-value previous token. -/
def collectAndValidateTokenSequences (items : tokens) : tokens × Option VErr :=
  cavGo Token.TokNil items

/-- Every adjacent kind pair along the stream, starting from the given
previous kind, is in the allowed-adjacency table. -/
def pairsValid : Token → tokens → Bool
  | _, [] => true
  | prev, i :: rest => validTokenSequence prev i.T && pairsValid i.T rest

/-- The kind of the last token of the stream, or the given previous
kind when the stream is empty: the value of p.previous after the walk. -/
def lastKind : Token → tokens → Token
  | prev, [] => prev
  | _, i :: rest => lastKind i.T rest

/-- The items of the stream whose kind is not the end marker, in order:
what the validator appends to p.tokens along a fully accepted walk. -/
def stripEof : tokens → tokens
  | [] => []
  | i :: rest => if i.T = Token.LitEof then stripEof rest else i :: stripEof rest

/-- The value of one field inside a selection map: a scalar string or a
list of scalar strings, the two shapes the design document permits for
detection content (section 3). -/
inductive FieldVal where
  | str (s : String)
  | list (l : List String)
  deriving DecidableEq, Repr

/-- The raw content of one detection entry: a scalar, a list of
scalars, or a map from field name to scalar or list, as the design
document describes for the Detection mapping (section 3). The condition
string itself is stored as a scalar under the reserved key. -/
inductive SigmaContent where
  | str (s : String)
  | list (l : List String)
  | fields (fs : List (String × FieldVal))
  deriving DecidableEq, Repr

/-- The Detection map of pkg/sigma (type Detection =
map from string to raw content), modelled as an association list with
the usual first-match lookup of a Go map with unique keys. -/
abbrev Detection := List (String × SigmaContent)

/-- Go map read d k: the first binding of the key, if present. -/
def detFind : Detection → String → Option SigmaContent
  | [], _ => none
  | (k, v) :: rest, key => if k = key then some v else detFind rest key

/-- SearchExprType of sigma.go: ExprUnk is the zero value, the other
two mark keyword-list and selection expressions. -/
inductive SearchExprType where
  | ExprUnk
  | ExprSelection
  | ExprKeywords
  deriving DecidableEq, Repr

/-- SearchExpr of sigma.go: the name of a detection entry, its guessed
type, and its raw content. The Go field named Type is rendered Typ
because Type is reserved in Lean. -/
structure SearchExpr where
  Name : String
  Typ : SearchExprType
  Content : SigmaContent
  deriving DecidableEq, Repr

/-- The byte prefix test of strings.HasPrefix used by SearchExpr.Guess,
written over the character lists of the two strings. -/
def strStartsWith (p s : String) : Bool :=
  List.isPrefixOf p.data s.data

/-- SearchExpr.Guess (sigma.go lines 334 to 341): an expression whose
name starts with the keyword prefix is classified as a keyword list,
every other expression as a selection; the name and content are kept. -/
def SearchExpr.Guess (s : SearchExpr) : SearchExpr :=
  if strStartsWith "keyword" s.Name then { s with Typ := SearchExprType.ExprKeywords }
  else { s with Typ := SearchExprType.ExprSelection }

/-- Detection.Get (sigma.go lines 371 to 380): look the key up in the
map and, when present, return the guessed search expression built from
the key and its content; otherwise the nil pointer, modelled as none. -/
def Detection.Get (d : Detection) (key : String) : Option SearchExpr :=
  match detFind d key with
  | some val => some (SearchExpr.Guess { Name := key, Typ := SearchExprType.ExprUnk, Content := val })
  | none => none

/-- Detection.Fields (sigma.go lines 345 to 360): every entry other
than the reserved condition key, sent through Guess. The Go version
streams the expressions over a channel in map order; the model lists
them in association-list order. -/
def Detection.Fields : Detection → List SearchExpr
  | [] => []
  | (k, v) :: rest =>
    if k = "condition" then Detection.Fields rest
    else SearchExpr.Guess { Name := k, Typ := SearchExprType.ExprUnk, Content := v }
           :: Detection.Fields rest

/-- The compiled matching-tree node type (match.Branch): the MatchNode
variants of the design document, section 3. The work-in-progress
simple-search pass only ever builds leaves and negation nodes
(match.NodeNot); the remaining variants complete the documented model. -/
inductive Branch where
  | selectionLeaf (fs : List (String × List String))
  | keywordsLeaf (patterns : List String)
  | nodeNot (child : Branch)
  | nodeAnd (children : List Branch)
  | nodeOr (children : List Branch)
  deriving Repr

/-- The compile errors the condition parser can produce. The first
group models the literal error returns of parseSearch and
parseSimpleSearch in condition_parser.go: the three TODO returns for
quantifier vocabulary (lines 22 to 30), the TODO return for discovered
groups (line 41), and the unconditional WIP return of parseSimpleSearch
(line 83). The second group belongs to the spec-modelled helpers: the
two unbalanced-parenthesis errors of the group scanner (section 4.3)
and the unknown-identifier and bad-content errors of the leaf matcher
builder (sections 4.4 and 4.5). -/
inductive PErr where
  | todoThem
  | todoWildcard
  | todoXof
  | todoGroups
  | wip
  | unbalancedGroup
  | unmatchedRpar
  | unknownIdent
  | invalidKeywords
  | invalidSelection
  deriving DecidableEq, Repr

/-- Normalization of one selection field value into its ordered list of
string patterns (section 4.5 of the design document). -/
def normalizeFieldVal : FieldVal → List String
  | FieldVal.str s => [s]
  | FieldVal.list l => l

/-- Modelled from the spec: newRuleMatcherFromIdent, the leaf matcher
builder of pkg/rule that condition_parser.go calls but whose code is
not part of the snapshot. Per sections 4.4 and 4.5: a nil expression
(unknown identifier) is a compile error; a keyword expression requires
a pattern list; a selection expression requires a field map, each field
normalized to its pattern list. The case flag only changes evaluation
of literal patterns, not the shape of the built leaf, so the patterns
are kept verbatim. -/
def newRuleMatcherFromIdent : Option SearchExpr → Bool → Except PErr Branch
  | none, _ => Except.error PErr.unknownIdent
  | some e, _ =>
    match e.Typ with
    | SearchExprType.ExprKeywords =>
      match e.Content with
      | SigmaContent.list l => Except.ok (Branch.keywordsLeaf l)
      | _ => Except.error PErr.invalidKeywords
    | _ =>
      match e.Content with
      | SigmaContent.fields fs =>
        Except.ok (Branch.selectionLeaf (fs.map (fun p => (p.1, normalizeFieldVal p.2))))
      | _ => Except.error PErr.invalidSelection

/-- rule.Config as used by condition_parser.go: the case-insensitivity
flag for literal matching. -/
structure Config where
  LowerCase : Bool
  deriving DecidableEq, Repr

/-- The loop of parseSimpleSearch (condition_parser.go lines 55 to 81)
over the remaining items, carrying the negated flag, the rules slice,
and the modifiers slice (initially the single neutral placeholder
TokNil). A negation keyword sets the pending flag; binary keywords are
appended to the modifiers; an identifier is resolved through
Detection.Get and the leaf builder, gets a neutral placeholder modifier
when no operator preceded it, is wrapped in a negation node when the
flag is set, and resets the flag; every other kind is skipped. Returns
the final rules and modifiers, or the first builder error. -/
def pssGo (data : Detection) (c : Config) :
    Bool → List Branch → List Token → tokens → Except PErr (List Branch × List Token)
  | _, rules, modifiers, [] => Except.ok (rules, modifiers)
  | negated, rules, modifiers, item :: rest =>
    match item.T with
    | Token.KeywordNot => pssGo data c true rules modifiers rest
    | Token.KeywordAnd => pssGo data c negated rules (modifiers ++ [Token.KeywordAnd]) rest
    | Token.KeywordOr => pssGo data c negated rules (modifiers ++ [Token.KeywordOr]) rest
    | Token.Identifier =>
      match newRuleMatcherFromIdent (Detection.Get data item.Val) c.LowerCase with
      | Except.error e => Except.error e
      | Except.ok r =>
        pssGo data c false
          (rules ++ [if negated then Branch.nodeNot r else r])
          (if modifiers.length - 1 ≠ rules.length then modifiers ++ [Token.TokNil] else modifiers)
          rest
    | _ => pssGo data c negated rules modifiers rest

/-- parseSimpleSearch (condition_parser.go lines 49 to 84): run the
collection loop and, mirroring the work-in-progress source, return the
WIP error whenever the loop itself did not fail earlier. -/
def parseSimpleSearch (t : tokens) (data : Detection) (c : Config) : Except PErr Branch :=
  match pssGo data c false [] [Token.TokNil] t with
  | Except.error e => Except.error e
  | Except.ok _ => Except.error PErr.wip

/-- A balanced-parenthesis span inside a token stream, by token
offsets. Modelled from the spec, section 4.3; the scanner below records
the top-level spans, which is all parseSearch consumes (it only asks
whether any span was found). -/
structure GroupSpan where
  startOffset : Nat
  endOffset : Nat
  deriving DecidableEq, Repr

/-- Modelled from the spec: the single left-to-right scan of the group
resolver (section 4.3), tracking the token offset, the balance counter,
and the offset of the opening parenthesis of the current top-level
span. A span is recorded when the counter returns to zero; a closing
parenthesis at balance zero is the unmatched-closing error; a positive
balance at the end of the stream is the unexpected-end error. -/
def groupScanGo : Nat → Nat → Nat → List GroupSpan → tokens → Except PErr (List GroupSpan)
  | _, bal, _, acc, [] =>
    if bal = 0 then Except.ok acc.reverse else Except.error PErr.unbalancedGroup
  | pos, bal, start, acc, item :: rest =>
    match item.T with
    | Token.SepLpar =>
      if bal = 0 then groupScanGo (pos + 1) 1 pos acc rest
      else groupScanGo (pos + 1) (bal + 1) start acc rest
    | Token.SepRpar =>
      if bal = 0 then Except.error PErr.unmatchedRpar
      else if bal = 1 then
        groupScanGo (pos + 1) 0 start ({ startOffset := start, endOffset := pos } :: acc) rest
      else groupScanGo (pos + 1) (bal - 1) start acc rest
    | _ => groupScanGo (pos + 1) bal start acc rest

/-- Modelled from the spec: newGroupOffsetInTokens as called by
parseSearch (condition_parser.go line 33): the discovered spans
together with the found-any flag. -/
def newGroupOffsetInTokens (t : tokens) : Except PErr (List GroupSpan × Bool) :=
  (groupScanGo 0 0 0 [] t).map (fun gs => (gs, !gs.isEmpty))

/-- The contains helper of the tokens slice used by parseSearch: does
any item of the stream have the given kind. -/
def tokensContains (t : tokens) (tok : Token) : Bool :=
  t.any (fun i => i.T = tok)

/-- parseSearch (condition_parser.go lines 12 to 45): reject the
quantifier vocabulary and wildcard identifiers with the literal TODO
errors of the source, then discover groups and, when any exist, return
the TODO error of line 41 instead of recursing; otherwise fall through
to parseSimpleSearch. -/
def parseSearch (t : tokens) (data : Detection) (c : Config) : Except PErr Branch :=
  if tokensContains t Token.IdentifierAll then Except.error PErr.todoThem
  else if tokensContains t Token.IdentifierWithWildcard then Except.error PErr.todoWildcard
  else if tokensContains t Token.StOne || tokensContains t Token.StAll then
    Except.error PErr.todoXof
  else
    match newGroupOffsetInTokens t with
    | Except.error e => Except.error e
    | Except.ok (_, true) => Except.error PErr.todoGroups
    | Except.ok (_, false) => parseSimpleSearch t data c

/-- A small detection fixture in the shape of the repository test
fixtures: a condition key plus three simple selection entries. -/
def detABC : Detection :=
  [("condition", SigmaContent.str "A or B and C"),
   ("A", SigmaContent.fields [("F1", FieldVal.str "aaa")]),
   ("B", SigmaContent.fields [("F2", FieldVal.str "bbb")]),
   ("C", SigmaContent.fields [("F3", FieldVal.str "ccc")])]

/-- Detection.Get with the detection map threaded explicitly, so that a
map store inside the Go body would be visible as a changed second
component. The body only performs the single map read of sigma.go lines
372 to 379. -/
def detGetSt (d : Detection) (key : String) : Option SearchExpr × Detection :=
  match detFind d key with
  | some val =>
    (some (SearchExpr.Guess { Name := key, Typ := SearchExprType.ExprUnk, Content := val }), d)
  | none => (none, d)

/-- Detection.Fields with the detection map threaded explicitly: the
walk of sigma.go lines 345 to 360 performs map reads only. -/
def detFieldsSt : Detection → List SearchExpr × Detection
  | [] => ([], [])
  | (k, v) :: rest =>
    (if k = "condition" then (detFieldsSt rest).1
     else SearchExpr.Guess { Name := k, Typ := SearchExprType.ExprUnk, Content := v }
            :: (detFieldsSt rest).1,
     (k, v) :: (detFieldsSt rest).2)

/-- The parseSimpleSearch loop with the detection map threaded through
every step: each identifier resolution routes the map through detGetSt
and hands the map it returns to the rest of the walk. -/
def pssGoSt (c : Config) :
    Bool → List Branch → List Token → Detection → tokens →
      Except PErr (List Branch × List Token) × Detection
  | _, rules, modifiers, d, [] => (Except.ok (rules, modifiers), d)
  | negated, rules, modifiers, d, item :: rest =>
    match item.T with
    | Token.KeywordNot => pssGoSt c true rules modifiers d rest
    | Token.KeywordAnd => pssGoSt c negated rules (modifiers ++ [Token.KeywordAnd]) d rest
    | Token.KeywordOr => pssGoSt c negated rules (modifiers ++ [Token.KeywordOr]) d rest
    | Token.Identifier =>
      match newRuleMatcherFromIdent (detGetSt d item.Val).1 c.LowerCase with
      | Except.error e => (Except.error e, (detGetSt d item.Val).2)
      | Except.ok r =>
        pssGoSt c false
          (rules ++ [if negated then Branch.nodeNot r else r])
          (if modifiers.length - 1 ≠ rules.length then modifiers ++ [Token.TokNil] else modifiers)
          (detGetSt d item.Val).2
          rest
    | _ => pssGoSt c negated rules modifiers d rest

/-- parseSimpleSearch with the detection map threaded explicitly. -/
def parseSimpleSearchSt (t : tokens) (data : Detection) (c : Config) :
    Except PErr Branch × Detection :=
  match pssGoSt c false [] [Token.TokNil] data t with
  | (Except.error e, d) => (Except.error e, d)
  | (Except.ok _, d) => (Except.error PErr.wip, d)

/-- parseSearch with the detection map threaded explicitly: the token
scans and the group discovery never touch the map; only the fall
through to the simple-search pass does. -/
def parseSearchSt (t : tokens) (data : Detection) (c : Config) :
    Except PErr Branch × Detection :=
  if tokensContains t Token.IdentifierAll then (Except.error PErr.todoThem, data)
  else if tokensContains t Token.IdentifierWithWildcard then
    (Except.error PErr.todoWildcard, data)
  else if tokensContains t Token.StOne || tokensContains t Token.StAll then
    (Except.error PErr.todoXof, data)
  else
    match newGroupOffsetInTokens t with
    | Except.error e => (Except.error e, data)
    | Except.ok (_, true) => (Except.error PErr.todoGroups, data)
    | Except.ok (_, false) => parseSimpleSearchSt t data c

/-- The compile-error taxonomy of pkg/sigma (sigma.go lines 268 to
420), one constructor per error type, plus a generic constructor for
the anonymous formatted errors. The detection-to-tree entry point
ParseDetection is not part of the snapshot, so ruleset compilation is
stated over an arbitrary function into this error type. -/
inductive SigmaErr where
  | missingDetection
  | emptyDetection
  | missingCondition
  | incompleteDetection (condition : String) (keys : List String) (msg : String)
  | unsupportedToken (msg : String)
  | wip
  | invalidRegex (pattern : String) (msg : String)
  | generic (msg : String)
  deriving DecidableEq, Repr

/-- The classification performed by the type switch of NewRuleset
(sigma.go line 157): exactly the three known-limitation error types
route a rule into the unsupported bucket. -/
def unsupportedKind : SigmaErr → Bool
  | SigmaErr.unsupportedToken _ => true
  | SigmaErr.incompleteDetection _ _ _ => true
  | SigmaErr.wip => true
  | _ => false

/-- One decoded rule entering the compilation loop of NewRuleset: its
file path and its detection map (the other RawRule fields do not steer
the loop). -/
structure DecodedRule where
  Path : String
  Det : Detection
  deriving DecidableEq, Repr

/-- A successfully compiled rule: path plus the tree the parse produced. -/
structure CompiledRule (tree : Type) where
  Path : String
  tree : tree
  deriving Repr

/-- One entry of the Unsupported or Broken bucket: the path of the rule
and the error the parse returned (the fields of UnsupportedRawRule that
the loop fills). -/
structure UnsupportedEntry where
  Path : String
  Error : SigmaErr
  deriving DecidableEq, Repr

/-- The decodedloop of NewRuleset (sigma.go lines 152 to 178),
parameterized by the detection parser: every decoded rule is parsed;
on success it joins the compiled rules, on a known-limitation error the
Unsupported bucket, on any other error the Broken bucket, and the loop
always continues with the next rule. -/
def decodedLoop {tree : Type} (parseDetection : Detection → Except SigmaErr tree) :
    List DecodedRule → List (CompiledRule tree) × List UnsupportedEntry × List UnsupportedEntry
  | [] => ([], [], [])
  | d :: rest =>
    match parseDetection d.Det with
    | Except.ok t =>
      ({ Path := d.Path, tree := t } :: (decodedLoop parseDetection rest).1,
       (decodedLoop parseDetection rest).2.1,
       (decodedLoop parseDetection rest).2.2)
    | Except.error e =>
      if unsupportedKind e then
        ((decodedLoop parseDetection rest).1,
         { Path := d.Path, Error := e } :: (decodedLoop parseDetection rest).2.1,
         (decodedLoop parseDetection rest).2.2)
      else
        ((decodedLoop parseDetection rest).1,
         (decodedLoop parseDetection rest).2.1,
         { Path := d.Path, Error := e } :: (decodedLoop parseDetection rest).2.2)

/-- The per-match result record of RuleGroup.Check: the matched rule
metadata it copies (Tags, ID, Title). -/
structure MatchResult where
  Tags : List String
  ID : String
  Title : String
  deriving DecidableEq, Repr

/-- One rule of a RuleGroup as RuleGroup.Check consumes it: its
compiled tree, kept abstract as the boolean match function over events
(Tree.Match is not part of the snapshot), plus the metadata copied into
results. -/
structure GroupRule (ev : Type) where
  treeMatch : ev → Bool
  Tags : List String
  ID : String
  Title : String

/-- The loop of RuleGroup.Check (sigma.go lines 61 to 79), carrying the
results accumulated so far: a matching rule appends its result, and
when the accumulated list has length one and firstmatch is set the walk
returns at once with true; after the walk, a non-empty accumulation
returns true, an empty one returns the nil slice (none) and false. -/
def checkGo {ev : Type} (obj : ev) (firstmatch : Bool) :
    List MatchResult → List (GroupRule ev) → Option (List MatchResult) × Bool
  | res, [] => if res.length > 0 then (some res, true) else (none, false)
  | res, rule :: rest =>
    if rule.treeMatch obj then
      let res2 := res ++ [({ Tags := rule.Tags, ID := rule.ID, Title := rule.Title } : MatchResult)]
      if res2.length = 1 ∧ firstmatch = true then (some res2, true)
      else checkGo obj firstmatch res2 rest
    else checkGo obj firstmatch res rest

/-- RuleGroup.Check (sigma.go lines 61 to 79) starting from the empty
result accumulation. -/
def RuleGroup.Check {ev : Type} (r : List (GroupRule ev)) (obj : ev) (firstmatch : Bool) :
    Option (List MatchResult) × Bool :=
  checkGo obj firstmatch [] r

theorem validTokenSequence_to_unsupp (prev : Token) :
    validTokenSequence prev Token.TokUnsupp = false := by
  cases prev <;> rfl

theorem validTokenSequence_start_ne_eof (t : Token) :
    validTokenSequence Token.TokNil t = true → t ≠ Token.LitEof := by
  cases t <;> decide

theorem cavGo_ok_iff (items : tokens) (prev : Token) :
    (cavGo prev items).2 = none ↔
      (pairsValid prev items = true ∧ lastKind prev items = Token.LitEof) := by
  induction items generalizing prev with
  | nil =>
    by_cases h : prev = Token.LitEof <;> simp [cavGo, pairsValid, lastKind, h]
  | cons i rest ih =>
    by_cases hu : i.T = Token.TokUnsupp
    · have hv : validTokenSequence prev i.T = false := by
        rw [hu]; exact validTokenSequence_to_unsupp prev
      simp [cavGo, pairsValid, hu, hv, validTokenSequence_to_unsupp]
    · by_cases hs : validTokenSequence prev i.T = false
      · simp [cavGo, pairsValid, hu, hs]
      · have hs' : validTokenSequence prev i.T = true := by
          cases h : validTokenSequence prev i.T
          · exact absurd h hs
          · rfl
        simp [cavGo, pairsValid, lastKind, hu, hs, hs', ih]

theorem cavGo_incomplete (items : tokens) (prev : Token)
    (hp : pairsValid prev items = true) (hl : lastKind prev items ≠ Token.LitEof) :
    (cavGo prev items).2 = some (VErr.incompleteSeq (lastKind prev items)) := by
  induction items generalizing prev with
  | nil => simp [cavGo, lastKind] at hl ⊢; simp [hl]
  | cons i rest ih =>
    simp [pairsValid] at hp
    obtain ⟨h1, h2⟩ := hp
    have hu : i.T ≠ Token.TokUnsupp := by
      intro h
      rw [h, validTokenSequence_to_unsupp prev] at h1
      exact Bool.false_ne_true h1
    have hl' : lastKind i.T rest ≠ Token.LitEof := by
      simpa [lastKind] using hl
    simp [cavGo, hu, h1, lastKind, ih i.T h2 hl']

theorem cavGo_unsupported (pre : tokens) (prev : Token) (v : String) (rest : tokens)
    (hp : pairsValid prev pre = true) :
    cavGo prev (pre ++ { T := Token.TokUnsupp, Val := v } :: rest)
      = (stripEof pre, some (VErr.unsupportedToken v)) := by
  induction pre generalizing prev with
  | nil => simp [cavGo, stripEof]
  | cons i pre' ih =>
    simp [pairsValid] at hp
    obtain ⟨h1, h2⟩ := hp
    have hu : i.T ≠ Token.TokUnsupp := by
      intro h
      rw [h, validTokenSequence_to_unsupp prev] at h1
      exact Bool.false_ne_true h1
    simp [cavGo, stripEof, hu, h1, ih i.T h2]

theorem cavGo_fst_ok (items : tokens) (prev : Token)
    (h : (cavGo prev items).2 = none) :
    (cavGo prev items).1 = stripEof items := by
  induction items generalizing prev with
  | nil => simp [cavGo, stripEof]
  | cons i rest ih =>
    by_cases hu : i.T = Token.TokUnsupp
    · simp [cavGo, hu] at h
    · by_cases hs : validTokenSequence prev i.T = false
      · simp [cavGo, hu, hs] at h
      · have h' : (cavGo i.T rest).2 = none := by
          simpa [cavGo, hu, hs] using h
        simp [cavGo, stripEof, hu, hs, ih i.T h']

theorem stripEof_ne_eof (items : tokens) :
    ∀ i ∈ stripEof items, i.T ≠ Token.LitEof := by
  induction items with
  | nil => simp [stripEof]
  | cons j rest ih =>
    by_cases h : j.T = Token.LitEof
    · simpa [stripEof, h] using ih
    · intro i hi
      simp [stripEof, h] at hi
      cases hi with
      | inl he => rw [he]; exact h
      | inr hm => exact ih i hm

theorem detGetSt_spec (d : Detection) (key : String) :
    detGetSt d key = (Detection.Get d key, d) := by
  unfold detGetSt Detection.Get
  cases detFind d key <;> rfl

theorem detFieldsSt_spec (d : Detection) :
    detFieldsSt d = (Detection.Fields d, d) := by
  induction d with
  | nil => rfl
  | cons p rest ih =>
    obtain ⟨k, v⟩ := p
    by_cases h : k = "condition" <;> simp [detFieldsSt, Detection.Fields, h, ih]

theorem pssGoSt_spec (items : tokens) (c : Config) (negated : Bool)
    (rules : List Branch) (modifiers : List Token) (d : Detection) :
    pssGoSt c negated rules modifiers d items
      = (pssGo d c negated rules modifiers items, d) := by
  induction items generalizing negated rules modifiers with
  | nil => rfl
  | cons item rest ih =>
    cases hT : item.T <;> simp [pssGoSt, pssGo, hT, detGetSt_spec, ih]
    case Identifier =>
      cases hm : newRuleMatcherFromIdent (Detection.Get d item.Val) c.LowerCase <;>
        simp [hm, ih]

theorem parseSimpleSearchSt_spec (t : tokens) (d : Detection) (c : Config) :
    parseSimpleSearchSt t d c = (parseSimpleSearch t d c, d) := by
  unfold parseSimpleSearchSt parseSimpleSearch
  rw [pssGoSt_spec]
  cases pssGo d c false [] [Token.TokNil] t <;> rfl

theorem parseSearchSt_spec (t : tokens) (d : Detection) (c : Config) :
    parseSearchSt t d c = (parseSearch t d c, d) := by
  unfold parseSearchSt parseSearch
  cases h1 : tokensContains t Token.IdentifierAll <;> simp [h1]
  cases h2 : tokensContains t Token.IdentifierWithWildcard <;> simp [h2]
  cases h3a : tokensContains t Token.StOne <;> cases h3b : tokensContains t Token.StAll <;>
    simp [h3a, h3b]
  all_goals
    cases hg : newGroupOffsetInTokens t with
    | error e => rfl
    | ok p =>
      obtain ⟨gs, b⟩ := p
      cases b
      · exact parseSimpleSearchSt_spec t d c
      · rfl

theorem decodedLoop_eq {tree : Type} (pd : Detection → Except SigmaErr tree)
    (decoded : List DecodedRule) :
    decodedLoop pd decoded
      = (decoded.filterMap (fun d =>
           match pd d.Det with
           | Except.ok t => some ({ Path := d.Path, tree := t } : CompiledRule tree)
           | Except.error _ => none),
         decoded.filterMap (fun d =>
           match pd d.Det with
           | Except.error e =>
             if unsupportedKind e then some ({ Path := d.Path, Error := e } : UnsupportedEntry)
             else none
           | Except.ok _ => none),
         decoded.filterMap (fun d =>
           match pd d.Det with
           | Except.error e =>
             if unsupportedKind e then none
             else some ({ Path := d.Path, Error := e } : UnsupportedEntry)
           | Except.ok _ => none)) := by
  induction decoded with
  | nil => rfl
  | cons d rest ih =>
    cases hp : pd d.Det with
    | ok t => simp [decodedLoop, hp, List.filterMap_cons, ih]
    | error e =>
      by_cases hk : unsupportedKind e = true <;>
        simp [decodedLoop, hp, hk, List.filterMap_cons, ih]

theorem decodedLoop_length {tree : Type} (pd : Detection → Except SigmaErr tree)
    (decoded : List DecodedRule) :
    (decodedLoop pd decoded).1.length + (decodedLoop pd decoded).2.1.length
      + (decodedLoop pd decoded).2.2.length = decoded.length := by
  induction decoded with
  | nil => rfl
  | cons d rest ih =>
    cases hp : pd d.Det with
    | ok t => simp [decodedLoop, hp]; omega
    | error e =>
      by_cases hk : unsupportedKind e = true <;> simp [decodedLoop, hp, hk] <;> omega

/-- Claim C1, evaluated on the code: on the validated token stream of a
condition with one parenthesized group, the group discovery succeeds
(one span is found) and parseSearch then returns the literal
group-recursion TODO error of condition_parser.go line 41, instead of
substituting a recursively compiled sub-tree and re-running the parse.
The recursive group handling the claim describes is not implemented in
the source. -/
theorem parseSearch_groups_todo :
    parseSearch
      [{ T := Token.SepLpar, Val := "(" }, { T := Token.Identifier, Val := "A" },
       { T := Token.KeywordAnd, Val := "and" }, { T := Token.Identifier, Val := "B" },
       { T := Token.SepRpar, Val := ")" }] detABC { LowerCase := false }
      = Except.error PErr.todoGroups
    ∧ newGroupOffsetInTokens
        [{ T := Token.SepLpar, Val := "(" }, { T := Token.Identifier, Val := "A" },
         { T := Token.KeywordAnd, Val := "and" }, { T := Token.Identifier, Val := "B" },
         { T := Token.SepRpar, Val := ")" }]
      = Except.ok ([{ startOffset := 0, endOffset := 4 }], true) :=
  ⟨rfl, rfl⟩

/-- Claim C2, evaluated on the code: validated token streams holding
the quantifier vocabulary or a wildcard identifier are not resolved
into Quantifier nodes; parseSearch returns the three literal TODO
errors of condition_parser.go lines 22 to 30 (the them identifier, the
wildcard identifier, and the X-of statement), so every such stream
fails compilation. -/
theorem parseSearch_quantifier_todo :
    parseSearch
      [{ T := Token.StAll, Val := "all" }, { T := Token.KeywordOf, Val := "of" },
       { T := Token.IdentifierAll, Val := "them" }] detABC { LowerCase := false }
      = Except.error PErr.todoThem
    ∧ parseSearch
        [{ T := Token.Identifier, Val := "A" }, { T := Token.KeywordAnd, Val := "and" },
         { T := Token.IdentifierWithWildcard, Val := "sel*" }] detABC { LowerCase := false }
      = Except.error PErr.todoWildcard
    ∧ parseSearch
        [{ T := Token.StOne, Val := "1" }, { T := Token.KeywordOf, Val := "of" },
         { T := Token.Identifier, Val := "A" }] detABC { LowerCase := false }
      = Except.error PErr.todoXof :=
  ⟨rfl, rfl, rfl⟩

/-- Claim C3, evaluated on the code: on the validated token stream of
the condition with identifiers A, B, C joined as A or B and C, over a
detection that defines all three identifiers, the simple-search pass
resolves every identifier successfully and then returns the
unconditional work-in-progress error of condition_parser.go line 83, so
compilation never succeeds and no precedence-respecting tree is built;
parseSearch inherits the same error. -/
theorem parseSimpleSearch_wip :
    parseSimpleSearch
      [{ T := Token.Identifier, Val := "A" }, { T := Token.KeywordOr, Val := "or" },
       { T := Token.Identifier, Val := "B" }, { T := Token.KeywordAnd, Val := "and" },
       { T := Token.Identifier, Val := "C" }] detABC { LowerCase := false }
      = Except.error PErr.wip
    ∧ parseSearch
        [{ T := Token.Identifier, Val := "A" }, { T := Token.KeywordOr, Val := "or" },
         { T := Token.Identifier, Val := "B" }, { T := Token.KeywordAnd, Val := "and" },
         { T := Token.Identifier, Val := "C" }] detABC { LowerCase := false }
      = Except.error PErr.wip :=
  ⟨rfl, rfl⟩

/-- Claim C4: the validator accepts a lexed stream exactly when every
adjacent token-kind pair along the walk (starting from the zero-value
previous token) is in the allowed-adjacency table and the last token of
the stream is the end marker; and when the pairs are all legal but the
last token seen is not the end marker, it fails with the
incomplete-stream error carrying that last kind. -/
theorem collectAndValidate_accepts_iff (items : tokens) :
    ((collectAndValidateTokenSequences items).2 = none ↔
      (pairsValid Token.TokNil items = true ∧ lastKind Token.TokNil items = Token.LitEof))
    ∧ (pairsValid Token.TokNil items = true → lastKind Token.TokNil items ≠ Token.LitEof →
        (collectAndValidateTokenSequences items).2
          = some (VErr.incompleteSeq (lastKind Token.TokNil items))) :=
  ⟨cavGo_ok_iff items Token.TokNil,
   fun hp hl => cavGo_incomplete items Token.TokNil hp hl⟩

/-- Witness for claim C4 at a concrete stream: a lone identifier with
no end marker has all its pairs in the table but does not end in the
end marker, and the validator rejects it with the incomplete-stream
error naming the identifier kind. -/
theorem collectAndValidate_accepts_iff_witness :
    pairsValid Token.TokNil [{ T := Token.Identifier, Val := "a" }] = true
    ∧ lastKind Token.TokNil [{ T := Token.Identifier, Val := "a" }] ≠ Token.LitEof
    ∧ (collectAndValidateTokenSequences [{ T := Token.Identifier, Val := "a" }]).2
        = some (VErr.incompleteSeq Token.Identifier) :=
  ⟨by decide, by decide,
   (collectAndValidate_accepts_iff [{ T := Token.Identifier, Val := "a" }]).2
     (by decide) (by decide)⟩

/-- Claim C5: when the stream reaches a token of the unsupported kind
after a prefix whose pairs are all legal, the validator fails at once
with the unsupported-token error carrying that token raw text, and the
collected stream holds exactly the non-end-marker items that preceded
the offending token: nothing at or after it is consumed. -/
theorem collectAndValidate_unsupported (pre rest : tokens) (v : String)
    (hp : pairsValid Token.TokNil pre = true) :
    collectAndValidateTokenSequences (pre ++ { T := Token.TokUnsupp, Val := v } :: rest)
      = (stripEof pre, some (VErr.unsupportedToken v)) :=
  cavGo_unsupported pre Token.TokNil v rest hp

/-- Witness for claim C5 at a concrete stream: identifier, then an
unsupported token, then the end marker; validation stops at the
unsupported token with its raw text and only the identifier was
collected. -/
theorem collectAndValidate_unsupported_witness :
    pairsValid Token.TokNil [{ T := Token.Identifier, Val := "a" }] = true
    ∧ collectAndValidateTokenSequences
        ([{ T := Token.Identifier, Val := "a" }]
          ++ { T := Token.TokUnsupp, Val := "|count" } :: [{ T := Token.LitEof, Val := "" }])
        = ([{ T := Token.Identifier, Val := "a" }], some (VErr.unsupportedToken "|count")) :=
  ⟨by decide,
   collectAndValidate_unsupported [{ T := Token.Identifier, Val := "a" }]
     [{ T := Token.LitEof, Val := "" }] "|count" (by decide)⟩

/-- Claim C6: ruleset compilation never aborts on a single rule. For
every detection parser and every batch of decoded rules, the
compilation loop of NewRuleset classifies each rule independently: the
successfully parsed rules, the rules failing with one of the three
known-limitation error types (unsupported token, incomplete detection,
work in progress), and the rules failing with any other error land in
the compiled, Unsupported, and Broken lists respectively, in batch
order, and the three lists together account for every decoded rule. -/
theorem newRuleset_routing {tree : Type} (pd : Detection → Except SigmaErr tree)
    (decoded : List DecodedRule) :
    decodedLoop pd decoded
      = (decoded.filterMap (fun d =>
           match pd d.Det with
           | Except.ok t => some ({ Path := d.Path, tree := t } : CompiledRule tree)
           | Except.error _ => none),
         decoded.filterMap (fun d =>
           match pd d.Det with
           | Except.error e =>
             if unsupportedKind e then some ({ Path := d.Path, Error := e } : UnsupportedEntry)
             else none
           | Except.ok _ => none),
         decoded.filterMap (fun d =>
           match pd d.Det with
           | Except.error e =>
             if unsupportedKind e then none
             else some ({ Path := d.Path, Error := e } : UnsupportedEntry)
           | Except.ok _ => none))
    ∧ (decodedLoop pd decoded).1.length + (decodedLoop pd decoded).2.1.length
        + (decodedLoop pd decoded).2.2.length = decoded.length :=
  ⟨decodedLoop_eq pd decoded, decodedLoop_length pd decoded⟩

/-- Claim C7: the classification of a detection entry is decided by
its name alone: Detection.Get builds the search expression through
Guess, which marks any name starting with the keyword prefix as a
keyword list and every other name as a selection, whatever the shape
of the stored content. -/
theorem detectionGet_classification (d : Detection) (key : String) (e : SearchExpr)
    (h : Detection.Get d key = some e) :
    e.Typ = (if strStartsWith "keyword" key then SearchExprType.ExprKeywords
             else SearchExprType.ExprSelection) := by
  unfold Detection.Get at h
  cases hf : detFind d key with
  | none => rw [hf] at h; exact absurd h (by simp)
  | some val =>
    rw [hf] at h
    have he : SearchExpr.Guess { Name := key, Typ := SearchExprType.ExprUnk, Content := val } = e := by
      injection h
    rw [← he]
    unfold SearchExpr.Guess
    by_cases hk : strStartsWith "keyword" key <;> simp [hk]

/-- Witness for claim C7 at concrete entries: a keyword-named entry is
classified as a keyword list, a selection-named entry as a selection,
content notwithstanding. -/
theorem detectionGet_classification_witness :
    Detection.Get [("keywords", SigmaContent.list ["foo"])] "keywords"
      = some { Name := "keywords", Typ := SearchExprType.ExprKeywords,
               Content := SigmaContent.list ["foo"] }
    ∧ SearchExpr.Typ { Name := "keywords", Typ := SearchExprType.ExprKeywords,
                       Content := SigmaContent.list ["foo"] }
      = (if strStartsWith "keyword" "keywords" then SearchExprType.ExprKeywords
         else SearchExprType.ExprSelection) :=
  ⟨rfl, detectionGet_classification [("keywords", SigmaContent.list ["foo"])] "keywords" _ rfl⟩

/-- Claim C8 counterexample: on the accepted stream of a lone
identifier followed by the end marker, the validator succeeds, but the
token stream it hands to the parser contains no end-marker token at
all: line 136 of condition_parser.go appends only non-end-marker items
to p.tokens, so the handed stream never contains exactly one trailing
end marker as claimed. -/
theorem validatedStream_eof_counterexample :
    (collectAndValidateTokenSequences
        [{ T := Token.Identifier, Val := "a" }, { T := Token.LitEof, Val := "" }]).2 = none
    ∧ ¬ ∃ i ∈ (collectAndValidateTokenSequences
        [{ T := Token.Identifier, Val := "a" }, { T := Token.LitEof, Val := "" }]).1,
        i.T = Token.LitEof := by
  decide

/-- Claim C8 as amended: every stream the validator accepts is handed
to the parser as a non-empty token sequence containing no end-marker
token: the single trailing end marker of the lexed stream is checked
and then stripped by the validator. -/
theorem validatedStream_no_eof (items : tokens)
    (h : (collectAndValidateTokenSequences items).2 = none) :
    (collectAndValidateTokenSequences items).1 ≠ []
    ∧ ∀ i ∈ (collectAndValidateTokenSequences items).1, i.T ≠ Token.LitEof := by
  obtain ⟨hp, hl⟩ := (cavGo_ok_iff items Token.TokNil).mp h
  have hfst : (collectAndValidateTokenSequences items).1 = stripEof items :=
    cavGo_fst_ok items Token.TokNil h
  constructor
  · rw [hfst]
    cases items with
    | nil => simp [lastKind] at hl
    | cons i rest =>
      simp [pairsValid] at hp
      have hne : i.T ≠ Token.LitEof := validTokenSequence_start_ne_eof i.T hp.1
      simp [stripEof, hne]
  · rw [hfst]
    exact stripEof_ne_eof items

/-- Witness for the amended claim C8 at a concrete accepted stream. -/
theorem validatedStream_no_eof_witness :
    (collectAndValidateTokenSequences
        [{ T := Token.Identifier, Val := "a" }, { T := Token.LitEof, Val := "" }]).2 = none
    ∧ ((collectAndValidateTokenSequences
          [{ T := Token.Identifier, Val := "a" }, { T := Token.LitEof, Val := "" }]).1 ≠ []
        ∧ ∀ i ∈ (collectAndValidateTokenSequences
            [{ T := Token.Identifier, Val := "a" }, { T := Token.LitEof, Val := "" }]).1,
            i.T ≠ Token.LitEof) :=
  ⟨by decide,
   validatedStream_no_eof
     [{ T := Token.Identifier, Val := "a" }, { T := Token.LitEof, Val := "" }] (by decide)⟩

/-- Claim C9: compilation only reads the detection map. In the
embedding that threads the map through every step (where a Go map store
would surface as a changed map), parseSearch, parseSimpleSearch,
Detection.Get and Detection.Fields all return the map they were given,
unchanged, while computing the same results as the direct embeddings. -/
theorem compilation_preserves_detection (t : tokens) (d : Detection) (c : Config)
    (k : String) :
    (parseSearchSt t d c).2 = d
    ∧ (parseSimpleSearchSt t d c).2 = d
    ∧ (detGetSt d k).2 = d
    ∧ (detFieldsSt d).2 = d
    ∧ (parseSearchSt t d c).1 = parseSearch t d c
    ∧ (parseSimpleSearchSt t d c).1 = parseSimpleSearch t d c
    ∧ (detGetSt d k).1 = Detection.Get d k
    ∧ (detFieldsSt d).1 = Detection.Fields d := by
  rw [parseSearchSt_spec, parseSimpleSearchSt_spec, detGetSt_spec, detFieldsSt_spec]
  exact ⟨rfl, rfl, rfl, rfl, rfl, rfl, rfl, rfl⟩

/-- Claim C10: with firstmatch set, RuleGroup.Check returns at the
first rule whose tree matches the event, with a result list of exactly
that rule's tags, id and title and the flag true; when no rule's tree
matches, it returns the nil result and false. -/
theorem ruleGroupCheck_firstmatch {ev : Type} (rules : List (GroupRule ev)) (obj : ev) :
    (match rules.find? (fun r => r.treeMatch obj) with
     | some r =>
       RuleGroup.Check rules obj true
         = (some [{ Tags := r.Tags, ID := r.ID, Title := r.Title }], true)
     | none => RuleGroup.Check rules obj true = (none, false)) := by
  unfold RuleGroup.Check
  induction rules with
  | nil => simp [checkGo]
  | cons r rest ih =>
    cases hm : r.treeMatch obj
    · simpa [List.find?, hm, checkGo] using ih
    · simp [List.find?, hm, checkGo]
